import Mathlib

set_option maxHeartbeats 1000000
set_option maxRecDepth 4000

/- Verification development for the mead-madness report generator
   (src/scripts/generate.py).  The Python program is shallowly embedded:
   pandas data frames become lists of rows, free-text cells become a small
   Python-value type (a text cell read from CSV is either a string or the
   float NaN that pandas puts in empty cells), and the matplotlib figure
   registry becomes an explicit list threaded through the driver.
   Figure coordinates (figtext positions, margins) are modelled as
   rationals; no claim depends on floating-point rounding of these
   constants. -/

/- ---------------------------------------------------------------- -/
/- Data model                                                        -/
/- ---------------------------------------------------------------- -/

/-- A value held in a pandas cell of a text column: `read_csv` yields a
Python `str` for a non-empty cell, the float NaN for an empty one.  The
`intVal` constructor covers the literal `42` of the documented example of
`clean_split`. -/
inductive PyVal where
  | str (s : List Char)
  | intVal (n : Int)
  | nanVal
  deriving DecidableEq, Repr

/-- One token produced by the text normalizer. -/
abbrev Token := List Char

/-- One row of the ratings table `<name>.csv`
    (columns Id, Sötma, Syrlighet, Fyllighet, Helhetsbetyg,
    Smaknoter, Bismaker, Övrigt). -/
structure Row where
  id : Nat
  sotma : Int
  syrlighet : Int
  fyllighet : Int
  helhetsbetyg : Int
  smaknoter : PyVal
  bismaker : PyVal
  ovrigt : PyVal
  deriving DecidableEq, Repr

/- ---------------------------------------------------------------- -/
/- Text normalizer: clean_split (generate.py lines 44-50)            -/
/- ---------------------------------------------------------------- -/

/-- The whitespace characters of Python `str.split()` (ASCII range). -/
def isPySpace (c : Char) : Bool :=
  c == ' ' || c == '\t' || c == '\n' || c == '\r' || c == '\x0b' || c == '\x0c'

/-- Prepend a character to the first chunk of a chunk list. -/
def modifyHeadCons (c : Char) : List (List Char) → List (List Char)
  | [] => [[c]]
  | h :: t => (c :: h) :: t

/-- Python `str.split(sep)` for a one-character separator predicate:
splits at every separator character and keeps empty chunks, so the chunk
count is (number of separators) + 1. -/
def splitP (p : Char → Bool) : List Char → List (List Char)
  | [] => [[]]
  | c :: cs => if p c then [] :: splitP p cs else modifyHeadCons c (splitP p cs)

/-- Python `str.split()` with no argument: the maximal runs of
non-whitespace characters (split at whitespace, empty chunks dropped). -/
def wordsP (l : List Char) : List (List Char) :=
  (splitP isPySpace l).filter (fun w => !w.isEmpty)

/-- Python `" ".join(ws)`: concatenation with a single space between
consecutive elements. -/
def joinSp : List (List Char) → List Char
  | [] => []
  | [w] => w
  | w :: x :: ws => w ++ ' ' :: joinSp (x :: ws)

/-- The per-piece normalization `" ".join(x.split())` of `clean_split`. -/
def normPiece (p : List Char) : List Char :=
  joinSp (wordsP p)

/-- `clean_split` (generate.py lines 44-50): a non-`str` value yields `[]`;
a string is split on every `;` and each piece is normalized. -/
def clean_split : PyVal → List Token
  | PyVal.str s => (splitP (fun c => c == ';') s).map normPiece
  | PyVal.intVal _ => []
  | PyVal.nanVal => []

/- Spec-side description of the per-piece normalization, following the
   words of the specification: collapse every whitespace run to a single
   space, then remove leading and trailing whitespace. -/

/-- Collapse every run of whitespace characters to a single space. -/
def squeezeWs : List Char → List Char
  | [] => []
  | c :: cs =>
    if isPySpace c then ' ' :: squeezeWs (cs.dropWhile isPySpace)
    else c :: squeezeWs cs
termination_by l => l.length
decreasing_by
  · simp only [List.length_cons]
    have : (cs.dropWhile isPySpace).length ≤ cs.length := by
      induction cs with
      | nil => simp
      | cons a t ih =>
        by_cases h : isPySpace a
        · rw [List.dropWhile_cons, if_pos h]; simp; omega
        · rw [List.dropWhile_cons, if_neg h]
    omega
  · simp only [List.length_cons]; omega

/-- Remove trailing whitespace. -/
def rtrimWs (l : List Char) : List Char :=
  (l.reverse.dropWhile isPySpace).reverse

/-- Remove leading then trailing whitespace. -/
def trimWs (l : List Char) : List Char :=
  rtrimWs (l.dropWhile isPySpace)

/-- The specification wording for one normalized piece: all internal
whitespace runs collapsed to single spaces, leading and trailing
whitespace removed. -/
def collapseWsSpec (l : List Char) : List Char :=
  trimWs (squeezeWs l)

/- ---------------------------------------------------------------- -/
/- Counter model (collections.Counter over a token list)             -/
/- ---------------------------------------------------------------- -/

/-- Add one occurrence of a token to an insertion-ordered counter, as
`Counter` does per element of the counted iterable. -/
def counterAdd : List (Token × Nat) → Token → List (Token × Nat)
  | [], t => [(t, 1)]
  | (u, n) :: rest, t =>
    if u = t then (u, n + 1) :: rest else (u, n) :: counterAdd rest t

/-- `Counter(l)` for a list `l`: counts of each distinct element, keyed in
first-occurrence order. -/
def counterOfList (l : List Token) : List (Token × Nat) :=
  l.foldl counterAdd []

/-- Lookup in a counter. -/
def lookupTok : List (Token × Nat) → Token → Option Nat
  | [], _ => none
  | (u, n) :: rest, t => if u = t then some n else lookupTok rest t

/-- The count a counter assigns to a token (0 when absent). -/
def countOf (fq : List (Token × Nat)) (t : Token) : Nat :=
  (lookupTok fq t).getD 0

/-- The keys of a counter. -/
def counterKeys (fq : List (Token × Nat)) : List Token :=
  fq.map Prod.fst

/- ---------------------------------------------------------------- -/
/- Aggregator (plot_mead_info, generate.py lines 85-105)             -/
/- ---------------------------------------------------------------- -/

/-- `df.query("Id == id")`: the rows matching one identifier. -/
def matchingRows (df : List Row) (i : Nat) : List Row :=
  df.filter (fun r => r.id == i)

/-- `this_df.filter(["Sötma", "Syrlighet", "Fyllighet"])`: the numeric
rating subframe of the matching rows, unmodified. -/
def ratingsSubframe (df : List Row) (i : Nat) : List (Int × Int × Int) :=
  (matchingRows df i).map (fun r => (r.sotma, r.syrlighet, r.fyllighet))

/-- Result of pandas `Series.sum()` over a column of token lists: the
scalar 0 for an empty column (the fold default), otherwise the
concatenation of the lists. -/
inductive PdSumResult where
  | scalarZero
  | listVal (l : List Token)
  deriving DecidableEq, Repr

/-- `.transform({col: clean_split}).sum()` reduced to its column value. -/
def seriesSum (ls : List (List Token)) : PdSumResult :=
  match ls with
  | [] => PdSumResult.scalarZero
  | x :: xs => PdSumResult.listVal ((x :: xs).flatten)

/-- The error `plot_mead_info` can raise while aggregating: `Counter(0)`
on the scalar sum of an empty column is a Python TypeError. -/
inductive AggError where
  | typeError
  deriving DecidableEq, Repr

/-- `Counter(sum_result)`: a token list is counted; the scalar 0 is not
iterable and raises TypeError. -/
def counterOfSum : PdSumResult → Except AggError (List (Token × Nat))
  | PdSumResult.scalarZero => Except.error AggError.typeError
  | PdSumResult.listVal l => Except.ok (counterOfList l)

/-- The token lists obtained by applying `clean_split` elementwise to one
text field of every matching row. -/
def fieldTokenLists (field : Row → PyVal) (df : List Row) (i : Nat) :
    List (List Token) :=
  (matchingRows df i).map (fun r => clean_split (field r))

/-- The flattened concatenation of those token lists. -/
def fieldFlatTokens (field : Row → PyVal) (df : List Row) (i : Nat) :
    List Token :=
  (fieldTokenLists field df i).flatten

/-- The `notes = Counter(...)` computation of generate.py lines 88-93. -/
def aggNotes (df : List Row) (i : Nat) :
    Except AggError (List (Token × Nat)) :=
  counterOfSum (seriesSum (fieldTokenLists Row.smaknoter df i))

/-- The `off_flavors = Counter(...)` computation of lines 94-99. -/
def aggOffFlavors (df : List Row) (i : Nat) :
    Except AggError (List (Token × Nat)) :=
  counterOfSum (seriesSum (fieldTokenLists Row.bismaker df i))

/-- The `other = ...` computation of lines 100-105 (no Counter applied). -/
def aggOther (df : List Row) (i : Nat) : PdSumResult :=
  seriesSum (fieldTokenLists Row.ovrigt df i)

/-- All aggregates of one `plot_mead_info` call. -/
structure Aggregates where
  ratings : List (Int × Int × Int)
  notes : List (Token × Nat)
  offFlavors : List (Token × Nat)
  other : PdSumResult
  deriving DecidableEq, Repr

/-- The aggregation phase of `plot_mead_info` (lines 85-105), in source
evaluation order: subframe, then notes, then off-flavors, then other. -/
def aggregate (df : List Row) (i : Nat) : Except AggError Aggregates := do
  let notes ← aggNotes df i
  let offFl ← aggOffFlavors df i
  Except.ok { ratings := ratingsSubframe df i, notes := notes,
              offFlavors := offFl, other := aggOther df i }

/- ---------------------------------------------------------------- -/
/- Identifier name resolver (IdNameMapper, lines 30-41)              -/
/- ---------------------------------------------------------------- -/

/-- Failure of a Python dict lookup. -/
inductive LookupError where
  | keyNotFound
  deriving DecidableEq, Repr

/-- `IdNameMapper.__getitem__`: `"({}) ".format(key) + map[key]`; a
missing key is the KeyError of the underlying dict. -/
def idNameGetItem (m : List (Nat × String)) (key : Nat) :
    Except LookupError String :=
  match m.lookup key with
  | some name => Except.ok ("(" ++ toString key ++ ") " ++ name)
  | none => Except.error LookupError.keyNotFound

/- ---------------------------------------------------------------- -/
/- Figure composer (write_counter, write_list, plot_mead_info layout) -/
/- ---------------------------------------------------------------- -/

/-- One `plt.figtext` call. -/
structure FText where
  x : ℚ
  y : ℚ
  txt : List Char
  fontsize : Nat
  deriving DecidableEq, Repr

/-- `"({}) {}".format(count, text)`. -/
def formatCount (n : Nat) (t : Token) : List Char :=
  ('(' :: (toString n).toList) ++ (')' :: ' ' :: t)

/-- One loop iteration of `write_counter`: advance the cursor by 0.04 and
emit one counted line. -/
def counterStep (x : ℚ) (acc : List FText × ℚ) (e : Token × Nat) :
    List FText × ℚ :=
  (acc.1 ++ [FText.mk x (acc.2 - 1/25) (formatCount e.2 e.1) 10],
   acc.2 - 1/25)

/-- `write_counter` (lines 53-66): title line, one line per counter entry,
then a 0.06 gap; returns the emitted texts and the final cursor. -/
def write_counter (x y : ℚ) (title : List Char) (c : List (Token × Nat)) :
    List FText × ℚ × ℚ :=
  let fin := c.foldl (counterStep x) ([FText.mk x y title 14], y)
  (fin.1, x, fin.2 - 3/50)

/-- One loop iteration of `write_list`. -/
def listStep (x : ℚ) (acc : List FText × ℚ) (t : Token) :
    List FText × ℚ :=
  (acc.1 ++ [FText.mk x (acc.2 - 1/25) t 10], acc.2 - 1/25)

/-- `write_list` (lines 69-82): like `write_counter` but each line is the
token verbatim. -/
def write_list (x y : ℚ) (title : List Char) (l : List Token) :
    List FText × ℚ × ℚ :=
  let fin := l.foldl (listStep x) ([FText.mk x y title 14], y)
  (fin.1, x, fin.2 - 3/50)

/-- The per-identifier figure produced by `plot_mead_info`. -/
structure MeadFigure where
  plotData : List (Int × Int × Int)
  yLim : Int × Int
  suptitle : List Char
  leftMargin : ℚ
  rightMargin : ℚ
  texts : List FText
  deriving DecidableEq, Repr

def smaknoterTitle : List Char := "Smaknoter".toList

def bismakerTitle : List Char := "Bismaker".toList

def ovrigtTitle : List Char := "Övrigt".toList

/-- One `if len(g) > 0:` block of lines 115-123: shrink the plot to
right=0.7 and append the annotation block at the running cursor. -/
def composeAccum (cond : Bool) (wr : ℚ → ℚ → List FText × ℚ × ℚ)
    (acc : ℚ × List FText × ℚ × ℚ) : ℚ × List FText × ℚ × ℚ :=
  if cond then
    let w := wr acc.2.2.1 acc.2.2.2
    (7/10, acc.2.1 ++ w.1, w.2.1, w.2.2)
  else acc

/-- The layout phase of `plot_mead_info` (lines 107-123): full-width plot
(right=0.9), cursor at (0.72, 0.85), then the three conditional
annotation blocks in source order notes, off-flavors, other. -/
def composeMeadFigure (title : List Char) (ratings : List (Int × Int × Int))
    (notes offFlavors : List (Token × Nat)) (other : List Token) :
    MeadFigure :=
  let a0 : ℚ × List FText × ℚ × ℚ := (9/10, [], 18/25, 17/20)
  let a1 := composeAccum (!notes.isEmpty)
    (fun x y => write_counter x y smaknoterTitle notes) a0
  let a2 := composeAccum (!offFlavors.isEmpty)
    (fun x y => write_counter x y bismakerTitle offFlavors) a1
  let a3 := composeAccum (!other.isEmpty)
    (fun x y => write_list x y ovrigtTitle other) a2
  { plotData := ratings, yLim := (1, 9), suptitle := title,
    leftMargin := 1/10, rightMargin := a3.1, texts := a3.2.1 }

/-- The text lines of a rendered counter block, title first. -/
def counterLines (title : List Char) (c : List (Token × Nat)) :
    List (List Char) :=
  title :: c.map (fun e => formatCount e.2 e.1)

/-- The text lines of a rendered plain-list block, title first. -/
def listLines (title : List Char) (l : List Token) : List (List Char) :=
  title :: l

/- ---------------------------------------------------------------- -/
/- CPython set model (for `set(sorted(df.get("Id")))`, line 170)     -/
/- ---------------------------------------------------------------- -/

/-- Python hash of a non-negative int. -/
def pyHash (n : Nat) : Nat := n % (2 ^ 61 - 1)

/-- CPython set insertion probe over an 8-slot open-addressing table
(the initial table size; no resize happens below 5 distinct elements).
Walks the probe sequence until it finds the element (no-op) or an empty
slot; the fuel bound is never reached on a table with a free slot. -/
def setProbe (x : Nat) : Nat → Nat → Nat → List (Option Nat) →
    List (Option Nat)
  | 0, _, _, slots => slots
  | fuel + 1, j, perturb, slots =>
    match slots.getD j none with
    | none => slots.set j (some x)
    | some y =>
      if y = x then slots
      else setProbe x fuel ((5 * j + 1 + perturb) % 8) (perturb / 32) slots

/-- Insert one element into the modelled CPython set table. -/
def pySetInsert (slots : List (Option Nat)) (x : Nat) :
    List (Option Nat) :=
  setProbe x 64 (pyHash x % 8) (pyHash x) slots

/-- `set(l)`: insert the elements of `l` in order into a fresh table. -/
def pySetFromList (l : List Nat) : List (Option Nat) :=
  l.foldl pySetInsert (List.replicate 8 none)

/-- Set iteration: the occupied slots in ascending slot order. -/
def pySetToList (slots : List (Option Nat)) : List Nat :=
  slots.filterMap id

/-- `set(sorted(df.get("Id")))` as iterated by the `for id in ...` loop
of `main` (line 170). -/
def idIterationOrder (df : List Row) : List Nat :=
  pySetToList (pySetFromList (List.insertionSort (· ≤ ·) (df.map Row.id)))

/- ---------------------------------------------------------------- -/
/- Report driver (main, lines 141-183)                               -/
/- ---------------------------------------------------------------- -/

/-- One matplotlib figure created during a run, tagged by what created
it: the title page, one per-identifier plot, or one category plot. -/
inductive Fig where
  | title (name : List Char)
  | meadInfo (id : Nat)
  | categoryPlot (category : List Char)
  deriving DecidableEq, Repr

/-- The four fixed category names of line 174, in source order. -/
def categoryNames : List (List Char) :=
  ["Sötma".toList, "Syrlighet".toList, "Fyllighet".toList,
   "Helhetsbetyg".toList]

/-- One instance folder: its name and its parsed ratings table. -/
structure InstanceData where
  name : List Char
  df : List Row
  deriving DecidableEq, Repr

/-- The figures created while processing one instance, in creation order:
title page, one per iterated identifier, one per category. -/
def instanceFigures (idOrder : List Nat) (inst : InstanceData) : List Fig :=
  Fig.title inst.name ::
    (idOrder.map Fig.meadInfo ++ categoryNames.map Fig.categoryPlot)

/-- The driver loop of `main`: per instance, create the figures (appending
them to the process-wide registry), then save one PDF page per figure in
`plt.get_fignums()`, which lists every still-open figure; no figure is
ever closed.  Returns the per-instance documents and the final registry.
The identifier iteration of each instance is supplied by `iter`. -/
def runDriver (iter : List Row → List Nat) (registry : List Fig) :
    List InstanceData → List (List Fig) × List Fig
  | [] => ([], registry)
  | inst :: rest =>
    let registry2 := registry ++ instanceFigures (iter inst.df) inst
    let next := runDriver iter registry2 rest
    (registry2 :: next.1, next.2)

/- ---------------------------------------------------------------- -/
/- Concrete data used by evaluation theorems and witnesses           -/
/- ---------------------------------------------------------------- -/

/-- A ratings row with fixed scores and empty (NaN) text cells. -/
def mkRow (i : Nat) : Row :=
  { id := i, sotma := 5, syrlighet := 4, fyllighet := 6, helhetsbetyg := 7,
    smaknoter := PyVal.nanVal, bismaker := PyVal.nanVal,
    ovrigt := PyVal.nanVal }

/-- A one-row dataset (identifier 1) with a notes cell. -/
def dfC2 : List Row :=
  [{ id := 1, sotma := 5, syrlighet := 4, fyllighet := 6, helhetsbetyg := 7,
     smaknoter := PyVal.str ("honung; rök".toList),
     bismaker := PyVal.nanVal, ovrigt := PyVal.nanVal }]

/-- A one-row dataset (identifier 2) with a notes cell. -/
def dfC7 : List Row :=
  [{ id := 2, sotma := 5, syrlighet := 4, fyllighet := 6, helhetsbetyg := 7,
     smaknoter := PyVal.str ("äpple".toList),
     bismaker := PyVal.nanVal, ovrigt := PyVal.nanVal }]

/-- A dataset whose notes and off-flavor cells repeat tokens. -/
def dfW7 : List Row :=
  [{ id := 1, sotma := 5, syrlighet := 4, fyllighet := 6, helhetsbetyg := 7,
     smaknoter := PyVal.str ("honung; rök; honung".toList),
     bismaker := PyVal.str ("svavel".toList), ovrigt := PyVal.nanVal }]

/-- Ratings table with identifiers 1 and 32 (one row each). -/
def dfC3 : List Row := [mkRow 1, mkRow 32]

/-- First instance folder of a two-instance run. -/
def instA : InstanceData := { name := "mead2024".toList, df := [mkRow 1] }

/-- Second instance folder of a two-instance run. -/
def instB : InstanceData := { name := "mead2025".toList, df := [mkRow 2] }

/-- A single instance whose table holds two distinct identifiers. -/
def instW : InstanceData :=
  { name := "mead2024".toList, df := [mkRow 1, mkRow 2, mkRow 2] }

/- ---------------------------------------------------------------- -/
/- Helper lemmas: splitting and whitespace collapsing                -/
/- ---------------------------------------------------------------- -/

theorem modifyHeadCons_ne_nil (c : Char) (x : List (List Char)) :
    modifyHeadCons c x ≠ [] := by
  cases x <;> simp [modifyHeadCons]

theorem splitP_ne_nil (p : Char → Bool) (l : List Char) :
    splitP p l ≠ [] := by
  cases l with
  | nil => simp [splitP]
  | cons c cs =>
    by_cases h : p c
    · simp [splitP, h]
    · simp only [splitP, h, if_false, Bool.false_eq_true]
      exact modifyHeadCons_ne_nil c _

theorem lengthDropWhileLe (p : Char → Bool) (l : List Char) :
    (l.dropWhile p).length ≤ l.length := by
  induction l with
  | nil => simp
  | cons a t ih =>
    by_cases h : p a
    · rw [List.dropWhile_cons, if_pos h]; simp; omega
    · rw [List.dropWhile_cons, if_neg h]

theorem dropWhile_head_false (p : Char → Bool) :
    ∀ (l : List Char) (a : Char) (t : List Char),
      l.dropWhile p = a :: t → p a = false := by
  intro l
  induction l with
  | nil => intro a t h; simp at h
  | cons c l2 ih =>
    intro a t h
    by_cases hc : p c
    · rw [List.dropWhile_cons, if_pos hc] at h; exact ih a t h
    · rw [List.dropWhile_cons, if_neg hc] at h
      cases h
      simpa using hc

theorem dropWhileAllFalse (p : Char → Bool) (l : List Char)
    (h : ∀ a ∈ l, p a = false) : l.dropWhile p = l := by
  cases l with
  | nil => rfl
  | cons a t =>
    rw [List.dropWhile_cons, if_neg]
    simp [h a (List.mem_cons_self a t)]

theorem myDropWhileAppend (p : Char → Bool) (a b : List Char) :
    (a ++ b).dropWhile p
      = if (a.dropWhile p).isEmpty then b.dropWhile p
        else a.dropWhile p ++ b := by
  induction a with
  | nil => simp
  | cons c a2 ih =>
    by_cases h : p c
    · rw [List.cons_append, List.dropWhile_cons, if_pos h, ih,
        List.dropWhile_cons, if_pos h]
    · rw [List.cons_append, List.dropWhile_cons, if_neg h,
        List.dropWhile_cons, if_neg h]
      simp

theorem wordsP_nil : wordsP [] = [] := by
  simp [wordsP, splitP]

theorem wordsP_cons_sp (c : Char) (cs : List Char)
    (h : isPySpace c = true) : wordsP (c :: cs) = wordsP cs := by
  simp [wordsP, splitP, h]

theorem wordsP_dropWhile (l : List Char) :
    wordsP (l.dropWhile isPySpace) = wordsP l := by
  induction l with
  | nil => rfl
  | cons c cs ih =>
    by_cases h : isPySpace c
    · rw [List.dropWhile_cons, if_pos h, ih, wordsP_cons_sp c cs h]
    · rw [List.dropWhile_cons, if_neg h]

theorem splitP_append_word (p : Char → Bool) (w : List Char)
    (hw : ∀ a ∈ w, p a = false) :
    ∀ l h t, splitP p l = h :: t → splitP p (w ++ l) = (w ++ h) :: t := by
  induction w with
  | nil => intro l h t hs; simpa using hs
  | cons a w2 ih =>
    intro l h t hs
    have ha : p a = false := hw a (List.mem_cons_self a w2)
    rw [List.cons_append, splitP, if_neg (by simp [ha]),
      ih (fun b hb => hw b (List.mem_cons_of_mem a hb)) l h t hs]
    rfl

theorem wordsP_all_ns (w : List Char) (hw0 : w ≠ [])
    (hws : ∀ a ∈ w, isPySpace a = false) : wordsP w = [w] := by
  have h := splitP_append_word isPySpace w hws [] [] [] rfl
  rw [List.append_nil] at h
  rw [wordsP, h]
  simp [hw0]

theorem wordsP_append_word_cons_sp (w : List Char) (c2 : Char)
    (r2 : List Char) (hw0 : w ≠ [])
    (hws : ∀ a ∈ w, isPySpace a = false) (hc2 : isPySpace c2 = true) :
    wordsP (w ++ c2 :: r2) = w :: wordsP r2 := by
  have hsplit : splitP isPySpace (c2 :: r2) = [] :: splitP isPySpace r2 := by
    simp [splitP, hc2]
  have h := splitP_append_word isPySpace w hws (c2 :: r2) []
    (splitP isPySpace r2) hsplit
  rw [List.append_nil] at h
  rw [wordsP, h]
  simp only [List.filter_cons]
  rw [if_pos (by simp [hw0])]
  rfl

theorem wordsP_cons_ns_ne_nil (a : Char) (t : List Char)
    (ha : isPySpace a = false) : wordsP (a :: t) ≠ [] := by
  rw [wordsP, splitP, if_neg (by simp [ha])]
  cases hs : splitP isPySpace t with
  | nil => exact absurd hs (splitP_ne_nil _ _)
  | cons h t2 =>
    simp [modifyHeadCons]

theorem nil_not_mem_wordsP (l : List Char) : [] ∉ wordsP l := by
  intro h
  have := List.of_mem_filter h
  simp at this

theorem joinSp_ne_nil (w : List Char) (ws : List (List Char))
    (hw : w ≠ []) : joinSp (w :: ws) ≠ [] := by
  cases ws with
  | nil => simpa [joinSp] using hw
  | cons x t => simp [joinSp]

theorem squeezeWs_nil : squeezeWs [] = [] := by
  simp [squeezeWs]

theorem squeezeWs_cons_sp (c : Char) (cs : List Char)
    (h : isPySpace c = true) :
    squeezeWs (c :: cs) = ' ' :: squeezeWs (cs.dropWhile isPySpace) := by
  rw [squeezeWs]
  simp [h]

theorem squeezeWs_cons_ns (c : Char) (cs : List Char)
    (h : isPySpace c = false) :
    squeezeWs (c :: cs) = c :: squeezeWs cs := by
  rw [squeezeWs]
  simp [h]

theorem squeezeWs_append_word (w r : List Char)
    (hw : ∀ a ∈ w, isPySpace a = false) :
    squeezeWs (w ++ r) = w ++ squeezeWs r := by
  induction w with
  | nil => simp
  | cons a w2 ih =>
    have ha : isPySpace a = false := hw a (List.mem_cons_self a w2)
    rw [List.cons_append, squeezeWs_cons_ns a _ ha,
      ih (fun b hb => hw b (List.mem_cons_of_mem a hb)), List.cons_append]

theorem trimWs_cons_sp (c : Char) (l : List Char)
    (h : isPySpace c = true) : trimWs (c :: l) = trimWs l := by
  simp [trimWs, List.dropWhile_cons, h]

theorem rtrimWs_nil : rtrimWs [] = [] := rfl

theorem rtrimWs_single_space : rtrimWs [' '] = [] := by decide

theorem trimWs_append_word (w r : List Char) (hw0 : w ≠ [])
    (hw : ∀ a ∈ w, isPySpace a = false) :
    trimWs (w ++ r) = w ++ rtrimWs r := by
  have hdw : (w ++ r).dropWhile isPySpace = w ++ r := by
    cases w with
    | nil => exact absurd rfl hw0
    | cons a w2 =>
      rw [List.cons_append, List.dropWhile_cons,
        if_neg (by simp [hw a (List.mem_cons_self a w2)])]
  rw [trimWs, hdw, rtrimWs, List.reverse_append, myDropWhileAppend]
  by_cases h2 : (r.reverse.dropWhile isPySpace).isEmpty
  · rw [if_pos h2]
    have h3 : w.reverse.dropWhile isPySpace = w.reverse :=
      dropWhileAllFalse _ _ (fun a ha => hw a (List.mem_reverse.mp ha))
    rw [h3, List.reverse_reverse, rtrimWs]
    rw [List.isEmpty_iff] at h2
    rw [h2]
    simp
  · rw [if_neg h2, List.reverse_append, List.reverse_reverse]
    rfl

theorem rtrimWs_cons_space (x : List Char) (h : rtrimWs x ≠ []) :
    rtrimWs (' ' :: x) = ' ' :: rtrimWs x := by
  have h2 : ¬ (x.reverse.dropWhile isPySpace).isEmpty := by
    intro hc
    rw [List.isEmpty_iff] at hc
    exact h (by rw [rtrimWs, hc]; rfl)
  rw [rtrimWs, List.reverse_cons, myDropWhileAppend, if_neg h2,
    List.reverse_append, rtrimWs]
  rfl

/-- The normalization applied to each semicolon piece by `clean_split`
agrees with the specification wording: collapse internal whitespace runs
to single spaces and strip leading/trailing whitespace (bounded-length
auxiliary form). -/
theorem joinSp_wordsP_eq (n : Nat) :
    ∀ l : List Char, l.length ≤ n → joinSp (wordsP l) = collapseWsSpec l := by
  induction n with
  | zero =>
    intro l hl
    have hl0 : l = [] := List.eq_nil_of_length_eq_zero (Nat.le_zero.mp hl)
    subst hl0
    rw [wordsP_nil, collapseWsSpec, squeezeWs_nil]
    rfl
  | succ n ih =>
    intro l hl
    cases l with
    | nil =>
      rw [wordsP_nil, collapseWsSpec, squeezeWs_nil]
      rfl
    | cons c cs =>
      have hlcs : cs.length ≤ n := by
        simp only [List.length_cons] at hl
        omega
      by_cases hc : isPySpace c = true
      · rw [wordsP_cons_sp c cs hc, ← wordsP_dropWhile cs]
        simp only [collapseWsSpec]
        rw [squeezeWs_cons_sp c cs hc, trimWs_cons_sp ' ' _ (by decide)]
        have := ih (cs.dropWhile isPySpace)
          (le_trans (lengthDropWhileLe _ _) hlcs)
        simpa [collapseWsSpec] using this
      · rw [Bool.not_eq_true] at hc
        obtain ⟨w, r, hwr, hw0, hwns, hrprop⟩ :
            ∃ w r, w ++ r = c :: cs ∧ w ≠ [] ∧
              (∀ a ∈ w, isPySpace a = false) ∧
              (r = [] ∨ ∃ c2 r2, r = c2 :: r2 ∧ isPySpace c2 = true) := by
          refine ⟨(c :: cs).takeWhile (fun a => !isPySpace a),
                  (c :: cs).dropWhile (fun a => !isPySpace a),
                  List.takeWhile_append_dropWhile _ _, ?_, ?_, ?_⟩
          · rw [List.takeWhile_cons, if_pos (by simp [hc])]
            simp
          · intro a ha
            have := List.mem_takeWhile_imp ha
            simpa using this
          · cases hr : (c :: cs).dropWhile (fun a => !isPySpace a) with
            | nil => exact Or.inl rfl
            | cons c2 r2 =>
              refine Or.inr ⟨c2, r2, rfl, ?_⟩
              have := dropWhile_head_false (fun a => !isPySpace a)
                (c :: cs) c2 r2 hr
              simpa using this
        have hlenr : r.length ≤ n := by
          have h1 : w.length + r.length = cs.length + 1 := by
            rw [← List.length_append, hwr]
            simp
          have h2 : 1 ≤ w.length := by
            cases w with
            | nil => exact absurd rfl hw0
            | cons a t => simp
          omega
        rw [← hwr]
        rcases hrprop with hrnil | ⟨c2, r2, hreq, hc2⟩
        · subst hrnil
          rw [List.append_nil, wordsP_all_ns w hw0 hwns]
          simp only [collapseWsSpec]
          have hsq : squeezeWs w = w := by
            have := squeezeWs_append_word w [] hwns
            simpa [squeezeWs_nil] using this
          rw [hsq]
          have htr : trimWs w = w := by
            have := trimWs_append_word w [] hw0 hwns
            simpa [rtrimWs_nil] using this
          rw [htr]
          rfl
        · subst hreq
          have hwords : wordsP (w ++ c2 :: r2)
              = w :: wordsP (r2.dropWhile isPySpace) := by
            rw [wordsP_append_word_cons_sp w c2 r2 hw0 hwns hc2,
              wordsP_dropWhile]
          have hsq : squeezeWs (w ++ c2 :: r2)
              = w ++ ' ' :: squeezeWs (r2.dropWhile isPySpace) := by
            rw [squeezeWs_append_word w _ hwns, squeezeWs_cons_sp c2 r2 hc2]
          simp only [collapseWsSpec]
          rw [hwords, hsq, trimWs_append_word w _ hw0 hwns]
          have hlen3 : (r2.dropWhile isPySpace).length ≤ n := by
            have := lengthDropWhileLe isPySpace r2
            simp only [List.length_cons] at hlenr
            omega
          have ihr := ih (r2.dropWhile isPySpace) hlen3
          simp only [collapseWsSpec] at ihr
          cases hwr3 : wordsP (r2.dropWhile isPySpace) with
          | nil =>
            have hr3 : r2.dropWhile isPySpace = [] := by
              cases h3 : r2.dropWhile isPySpace with
              | nil => rfl
              | cons a t =>
                have ha : isPySpace a = false :=
                  dropWhile_head_false isPySpace r2 a t h3
                rw [h3] at hwr3
                exact absurd hwr3 (wordsP_cons_ns_ne_nil a t ha)
            rw [hr3, squeezeWs_nil, rtrimWs_single_space]
            simp [joinSp]
          | cons w2 ws2 =>
            obtain ⟨a, t, hr3⟩ :
                ∃ a t, r2.dropWhile isPySpace = a :: t := by
              cases h3 : r2.dropWhile isPySpace with
              | nil =>
                rw [h3, wordsP_nil] at hwr3
                exact absurd hwr3 (by simp)
              | cons a t => exact ⟨a, t, rfl⟩
            have ha : isPySpace a = false :=
              dropWhile_head_false isPySpace r2 a t hr3
            have hltrim : (squeezeWs (r2.dropWhile isPySpace)).dropWhile
                isPySpace = squeezeWs (r2.dropWhile isPySpace) := by
              rw [hr3, squeezeWs_cons_ns a t ha, List.dropWhile_cons,
                if_neg (by simp [ha])]
            have htr3 : trimWs (squeezeWs (r2.dropWhile isPySpace))
                = rtrimWs (squeezeWs (r2.dropWhile isPySpace)) := by
              rw [trimWs, hltrim]
            have hw2 : w2 ≠ [] := by
              intro hbad
              exact nil_not_mem_wordsP (r2.dropWhile isPySpace)
                (by rw [hwr3, hbad]; exact List.mem_cons_self _ _)
            rw [hwr3] at ihr
            have hne : rtrimWs (squeezeWs (r2.dropWhile isPySpace)) ≠ [] := by
              rw [← htr3, ← ihr]
              exact joinSp_ne_nil w2 ws2 hw2
            rw [rtrimWs_cons_space _ hne, ← htr3, ← ihr]
            rfl

/-- Each piece normalized by `clean_split` equals the spec-side
collapse-and-trim of that piece. -/
theorem normPiece_eq (p : List Char) : normPiece p = collapseWsSpec p :=
  joinSp_wordsP_eq p.length p le_rfl

/- ---------------------------------------------------------------- -/
/- Helper lemmas: Counter, splitting length, aggregation             -/
/- ---------------------------------------------------------------- -/

theorem counterAdd_lookup (fq : List (Token × Nat)) (u t : Token) :
    lookupTok (counterAdd fq u) t
      = if t = u then some ((lookupTok fq t).getD 0 + 1)
        else lookupTok fq t := by
  induction fq with
  | nil =>
    by_cases h : u = t
    · subst h; simp [counterAdd, lookupTok]
    · simp [counterAdd, lookupTok, h, Ne.symm h]
  | cons p rest ih =>
    obtain ⟨v, n⟩ := p
    simp only [counterAdd]
    by_cases hvu : v = u
    · subst hvu
      simp only [if_pos rfl]
      by_cases htv : t = v
      · subst htv; simp [lookupTok]
      · simp [lookupTok, htv, Ne.symm htv]
    · simp only [if_neg hvu]
      by_cases htv : t = v
      · subst htv
        simp [lookupTok, hvu]
      · simp [lookupTok, Ne.symm htv, htv, ih]

theorem foldl_counterAdd_countOf (l : List Token) :
    ∀ (fq : List (Token × Nat)) (t : Token),
      countOf (l.foldl counterAdd fq) t = countOf fq t + l.count t := by
  induction l with
  | nil => intro fq t; simp
  | cons u l2 ih =>
    intro fq t
    rw [List.foldl_cons, ih]
    by_cases htu : t = u
    · subst htu
      simp [countOf, counterAdd_lookup, List.count_cons]
      omega
    · simp [countOf, counterAdd_lookup, htu, List.count_cons]

theorem counterAdd_keys_mem (fq : List (Token × Nat)) (u t : Token) :
    t ∈ counterKeys (counterAdd fq u) ↔ t ∈ counterKeys fq ∨ t = u := by
  induction fq with
  | nil => simp [counterAdd, counterKeys]
  | cons p rest ih =>
    obtain ⟨v, n⟩ := p
    by_cases hvu : v = u
    · subst hvu
      rw [show counterAdd ((v, n) :: rest) v = (v, n + 1) :: rest from by
        simp [counterAdd]]
      simp only [counterKeys, List.map_cons, List.mem_cons]
      tauto
    · rw [show counterAdd ((v, n) :: rest) u
          = (v, n) :: counterAdd rest u from by simp [counterAdd, hvu]]
      simp only [counterKeys, List.map_cons, List.mem_cons]
      rw [show (List.map Prod.fst (counterAdd rest u)) =
        counterKeys (counterAdd rest u) from rfl, ih]
      tauto

theorem foldl_counterAdd_keys (l : List Token) :
    ∀ (fq : List (Token × Nat)) (t : Token),
      t ∈ counterKeys (l.foldl counterAdd fq)
        ↔ t ∈ counterKeys fq ∨ t ∈ l := by
  induction l with
  | nil => intro fq t; simp
  | cons u l2 ih =>
    intro fq t
    rw [List.foldl_cons, ih, counterAdd_keys_mem, List.mem_cons]
    tauto

theorem countOf_counterOfList (l : List Token) (t : Token) :
    countOf (counterOfList l) t = l.count t := by
  have h := foldl_counterAdd_countOf l [] t
  simpa [counterOfList, countOf, lookupTok] using h

theorem mem_counterKeys_counterOfList (l : List Token) (t : Token) :
    t ∈ counterKeys (counterOfList l) ↔ t ∈ l := by
  have h := foldl_counterAdd_keys l [] t
  simpa [counterOfList, counterKeys] using h

theorem splitP_length (p : Char → Bool) (l : List Char) :
    (splitP p l).length = l.countP p + 1 := by
  induction l with
  | nil => simp [splitP]
  | cons c cs ih =>
    by_cases h : p c = true
    · simp [splitP, h, ih, List.countP_cons]
    · simp only [splitP, h, if_false]
      cases hs : splitP p cs with
      | nil => exact absurd hs (splitP_ne_nil p cs)
      | cons x t =>
        rw [hs] at ih
        simp only [modifyHeadCons, List.length_cons, List.countP_cons, h,
          if_false] at ih ⊢
        simpa using ih

theorem counterOfSum_seriesSum_ok (field : Row → PyVal) (df : List Row)
    (i : Nat) (h : matchingRows df i ≠ []) :
    counterOfSum (seriesSum (fieldTokenLists field df i))
      = Except.ok (counterOfList (fieldFlatTokens field df i)) := by
  cases hm : matchingRows df i with
  | nil => exact absurd hm h
  | cons a as =>
    simp [fieldTokenLists, fieldFlatTokens, hm, seriesSum, counterOfSum]

theorem foldl_counterStep_txts (x : ℚ) (c : List (Token × Nat)) :
    ∀ acc : List FText × ℚ,
      ((c.foldl (counterStep x) acc).1).map FText.txt
        = acc.1.map FText.txt ++ c.map (fun e => formatCount e.2 e.1) := by
  induction c with
  | nil => intro acc; simp
  | cons e c2 ih =>
    intro acc
    rw [List.foldl_cons, ih]
    simp [counterStep]

theorem write_counter_txts (x y : ℚ) (title : List Char)
    (c : List (Token × Nat)) :
    (write_counter x y title c).1.map FText.txt = counterLines title c := by
  simp [write_counter, foldl_counterStep_txts, counterLines]

theorem foldl_listStep_txts (x : ℚ) (l : List Token) :
    ∀ acc : List FText × ℚ,
      ((l.foldl (listStep x) acc).1).map FText.txt
        = acc.1.map FText.txt ++ l := by
  induction l with
  | nil => intro acc; simp
  | cons e l2 ih =>
    intro acc
    rw [List.foldl_cons, ih]
    simp [listStep]

theorem write_list_txts (x y : ℚ) (title : List Char) (l : List Token) :
    (write_list x y title l).1.map FText.txt = listLines title l := by
  simp [write_list, foldl_listStep_txts, listLines]

/- ---------------------------------------------------------------- -/
/- Claim theorems                                                    -/
/- ---------------------------------------------------------------- -/

/-- Claim C4: the Text Normalizer returns the empty sequence on non-string
input; on a string it splits on semicolons and maps each piece to the
piece with internal whitespace runs collapsed to single spaces and
leading/trailing whitespace removed (no non-whitespace character is
discarded, as the collapse-and-trim form preserves them); and the three
documented examples hold. -/
theorem claim4_text_normalizer :
    (∀ n : Int, clean_split (PyVal.intVal n) = [])
  ∧ clean_split PyVal.nanVal = []
  ∧ (∀ s : List Char,
      clean_split (PyVal.str s)
        = (splitP (fun c => c == ';') s).map collapseWsSpec)
  ∧ clean_split (PyVal.str ("hej;  Hej; haj".toList))
      = ["hej".toList, "Hej".toList, "haj".toList]
  ∧ clean_split (PyVal.intVal 42) = []
  ∧ clean_split (PyVal.str ("".toList)) = [[]] := by
  refine ⟨fun n => rfl, rfl, fun s => ?_, by decide, rfl, rfl⟩
  simp only [clean_split]
  exact List.map_congr_left (fun p _ => normPiece_eq p)

/-- Claim C10: for every string input the Text Normalizer returns exactly
(number of semicolons) + 1 tokens. -/
theorem claim10_token_count (s : List Char) :
    (clean_split (PyVal.str s)).length = s.count ';' + 1 := by
  simp only [clean_split, List.length_map, splitP_length]
  rfl

/-- Claim C2 counterexample: for a dataset whose only row has identifier 1
and the query identifier 99 (zero matching rows), the Aggregator does not
succeed: it raises a TypeError (the empty column sums to the scalar 0,
which Counter cannot iterate), contradicting the claim that all outputs
are empty and no error is raised. -/
theorem claim2_counterexample :
    matchingRows dfC2 99 = []
  ∧ aggregate dfC2 99 = Except.error AggError.typeError := by
  constructor
  · rfl
  · rfl

/-- Claim C2 (amended): for every dataset and identifier matching zero
rows, the numeric-rating subframe is empty, but the Aggregator raises a
TypeError instead of succeeding with empty text aggregates. -/
theorem claim2_zero_match_behavior (df : List Row) (i : Nat)
    (h : matchingRows df i = []) :
    ratingsSubframe df i = []
  ∧ aggregate df i = Except.error AggError.typeError := by
  constructor
  · simp [ratingsSubframe, h]
  · simp [aggregate, aggNotes, fieldTokenLists, h, seriesSum, counterOfSum,
      Bind.bind, Except.bind]

/-- Witness for claim C2: the amended statement at the concrete dataset
`dfC2` and identifier 99. -/
theorem claim2_witness :
    ratingsSubframe dfC2 99 = []
  ∧ aggregate dfC2 99 = Except.error AggError.typeError :=
  claim2_zero_match_behavior dfC2 99 rfl

/-- Claim C3: evaluation of the identifier iteration of `main` on a table
with identifiers 1 and 32.  CPython iterates `set(sorted(ids))` in
hash-slot order (1 lands in slot 1, 32 in slot 0 of the 8-slot table), so
the loop processes 32 before 1, while the ascending order after
deduplication that the claim describes would be 1 then 32. -/
theorem claim3_set_order_eval :
    idIterationOrder dfC3 = [32, 1]
  ∧ List.insertionSort (· ≤ ·) ((dfC3.map Row.id).dedup) = [1, 32] :=
  ⟨rfl, by decide⟩

/-- Claim C5: the Identifier Name Resolver returns "(<id>) <name>" for a
present key and a Key-Not-Found error for an absent key (the resolver is
a pure function of the immutable table, so its state is unchanged); the
two documented examples hold. -/
theorem claim5_resolver (m : List (Nat × String)) (k : Nat) :
    (∀ n : String, m.lookup k = some n →
        idNameGetItem m k = Except.ok ("(" ++ toString k ++ ") " ++ n))
  ∧ (m.lookup k = none →
        idNameGetItem m k = Except.error LookupError.keyNotFound)
  ∧ idNameGetItem [(1, "Alpha"), (2, "Beta")] 1 = Except.ok ("(1) Alpha")
  ∧ idNameGetItem [(1, "Alpha"), (2, "Beta")] 3
      = Except.error LookupError.keyNotFound := by
  refine ⟨?_, ?_, rfl, rfl⟩
  · intro n h
    simp [idNameGetItem, h]
  · intro h
    simp [idNameGetItem, h]

/-- Witness for claim C5: both lookup branches at the concrete table. -/
theorem claim5_witness :
    idNameGetItem [(1, "Alpha"), (2, "Beta")] 1 = Except.ok ("(1) Alpha")
  ∧ idNameGetItem [(1, "Alpha"), (2, "Beta")] 3
      = Except.error LookupError.keyNotFound :=
  ⟨(claim5_resolver [(1, "Alpha"), (2, "Beta")] 1).1 ("Alpha") rfl,
   (claim5_resolver [(1, "Alpha"), (2, "Beta")] 3).2.1 rfl⟩

/-- Claim C9: the Aggregator is deterministic and idempotent: two calls on
equal inputs return equal rating subframes, frequency tables and
other-lists (the model is a pure function of the dataset and
identifier). -/
theorem claim9_deterministic (df1 df2 : List Row) (i1 i2 : Nat)
    (hdf : df1 = df2) (hi : i1 = i2) :
    aggregate df1 i1 = aggregate df2 i2 := by
  rw [hdf, hi]

/-- Witness for claim C9: two identical calls at a concrete dataset. -/
theorem claim9_witness : aggregate dfW7 1 = aggregate dfW7 1 :=
  claim9_deterministic dfW7 dfW7 1 1 rfl rfl

/-- Claim C7 counterexample: the claim quantifies over every identifier,
but for identifier 99 (zero matching rows in `dfC7`) no notes frequency
table is produced at all: the aggregation raises a TypeError, so the
claimed counting property cannot hold for every dataset and
identifier. -/
theorem claim7_counterexample :
    aggNotes dfC7 99 = Except.error AggError.typeError := rfl

/-- Claim C7 (amended): for every dataset and identifier with at least one
matching row, the notes frequency table maps each distinct normalized
token to exactly its number of occurrences in the flattened concatenation
of the Text Normalizer output over the notes field of the matching rows;
no such token is missing and no other token appears; and the same holds
for the off-flavors field. -/
theorem claim7_frequency (df : List Row) (i : Nat)
    (h : matchingRows df i ≠ []) :
    (aggNotes df i
        = Except.ok (counterOfList (fieldFlatTokens Row.smaknoter df i))
      ∧ ∀ t : Token,
          countOf (counterOfList (fieldFlatTokens Row.smaknoter df i)) t
            = (fieldFlatTokens Row.smaknoter df i).count t
          ∧ (t ∈ counterKeys
                (counterOfList (fieldFlatTokens Row.smaknoter df i))
              ↔ t ∈ fieldFlatTokens Row.smaknoter df i))
  ∧ (aggOffFlavors df i
        = Except.ok (counterOfList (fieldFlatTokens Row.bismaker df i))
      ∧ ∀ t : Token,
          countOf (counterOfList (fieldFlatTokens Row.bismaker df i)) t
            = (fieldFlatTokens Row.bismaker df i).count t
          ∧ (t ∈ counterKeys
                (counterOfList (fieldFlatTokens Row.bismaker df i))
              ↔ t ∈ fieldFlatTokens Row.bismaker df i)) := by
  refine ⟨⟨counterOfSum_seriesSum_ok Row.smaknoter df i h, fun t => ?_⟩,
          ⟨counterOfSum_seriesSum_ok Row.bismaker df i h, fun t => ?_⟩⟩
  · exact ⟨countOf_counterOfList _ t, mem_counterKeys_counterOfList _ t⟩
  · exact ⟨countOf_counterOfList _ t, mem_counterKeys_counterOfList _ t⟩

/-- Witness for claim C7: at the concrete dataset `dfW7` and identifier 1
the notes table is produced and assigns the repeated token "honung" its
occurrence count. -/
theorem claim7_witness :
    aggNotes dfW7 1
      = Except.ok (counterOfList (fieldFlatTokens Row.smaknoter dfW7 1))
  ∧ countOf (counterOfList (fieldFlatTokens Row.smaknoter dfW7 1))
      ("honung".toList)
      = (fieldFlatTokens Row.smaknoter dfW7 1).count ("honung".toList) := by
  have h := claim7_frequency dfW7 1 (by decide)
  exact ⟨h.1.1, (h.1.2 ("honung".toList)).1⟩

/-- Claim C8: the per-identifier figure has no annotation panel and full
plot width (right margin 0.9) exactly when all three text groups are
empty; otherwise the plot is shrunk to right margin 0.7 and the emitted
annotation lines are the non-empty groups in order notes, off-flavors,
other, each contributing its title line and entry lines, with empty
groups contributing nothing. -/
theorem claim8_figure_layout (title : List Char)
    (ratings : List (Int × Int × Int)) (notes offFl : List (Token × Nat))
    (other : List Token) :
    (composeMeadFigure title ratings notes offFl other).rightMargin
      = (if notes.isEmpty && offFl.isEmpty && other.isEmpty
         then (9 : ℚ)/10 else 7/10)
  ∧ (composeMeadFigure title ratings notes offFl other).texts.map FText.txt
      = ((if notes.isEmpty then [] else counterLines smaknoterTitle notes)
         ++ (if offFl.isEmpty then [] else counterLines bismakerTitle offFl)
         ++ (if other.isEmpty then [] else listLines ovrigtTitle other)) := by
  cases hn : notes.isEmpty <;> cases ho : offFl.isEmpty <;>
    cases hx : other.isEmpty <;>
      exact ⟨by simp [composeMeadFigure, composeAccum, hn, ho, hx],
             by simp [composeMeadFigure, composeAccum, hn, ho, hx,
               write_counter_txts, write_list_txts]⟩

/-- Claim C6: for a single-instance run whose ratings table has k distinct
identifiers, the driver creates and paginates exactly 1 (title) + k
(per-identifier) + 4 (category) figures; the set iteration is any
duplicate-free enumeration of the identifiers appearing in the table
(which is what Python guarantees for `set(...)` iteration). -/
theorem claim6_page_count (order : List Nat) (inst : InstanceData)
    (h1 : order.Nodup)
    (h2 : order.toFinset = (inst.df.map Row.id).toFinset) :
    (runDriver (fun _ => order) [] [inst]).1
      = [instanceFigures order inst]
  ∧ (instanceFigures order inst).length
      = 1 + (inst.df.map Row.id).toFinset.card + 4 := by
  constructor
  · simp [runDriver]
  · rw [← h2, List.toFinset_card_of_nodup h1]
    simp [instanceFigures, categoryNames]
    omega

/-- Witness for claim C6: the two-identifier instance of the end-to-end
example produces a 7-page document. -/
theorem claim6_witness :
    (runDriver (fun _ => ([1, 2] : List Nat)) [] [instW]).1
      = [instanceFigures [1, 2] instW]
  ∧ (instanceFigures [1, 2] instW).length
      = 1 + (instW.df.map Row.id).toFinset.card + 4 :=
  claim6_page_count [1, 2] instW (by decide) (by decide)

/-- Claim C1: evaluation of a two-instance run.  The driver never closes
figures, so the registry is not empty after the first instance, the
second document contains the first instance figures as well (12 pages
instead of 6), and the first title page appears in both documents; this
refutes the claimed per-instance pagination and registry reset.  The
first document does contain exactly the first instance figures in
creation order. -/
theorem claim1_registry_leak_eval :
    (runDriver idIterationOrder [] [instA, instB]).1
      = [instanceFigures [1] instA,
         instanceFigures [1] instA ++ instanceFigures [2] instB]
  ∧ (instanceFigures [2] instB).length = 6
  ∧ ((runDriver idIterationOrder [] [instA, instB]).1.getD 1 []).length = 12
  ∧ Fig.title ("mead2024".toList)
      ∈ ((runDriver idIterationOrder [] [instA, instB]).1.getD 1 [])
  ∧ (runDriver idIterationOrder [] [instA, instB]).2.length = 12 := by
  refine ⟨rfl, rfl, rfl, by decide, rfl⟩
